import Mathlib

/-!
Verification of the speaker-tag persistence component of the
Coqui-TTS voice categoriser tool (gui/services/speaker_service.py).

The Python class `SpeakerService` keeps four fields:
  speaker_tags      : model name -> speaker name -> set of tag names
  tag_definitions   : tag name -> record of description, color and a
                      per-model list of speaker names
  downloaded_models : set of model names
  available_models  : list of model names
and persists them in a JSON file with backward-compatible format
detection on load and a fixed versioned shape on save.

Python dictionaries are modelled as insertion-ordered association
lists with unique keys: assignment to an existing key keeps its
position, assignment to a fresh key appends.  Python sets of strings
are modelled as duplicate-free lists in insertion order; every fact
proved about them is order-insensitive wherever CPython's set
iteration order is not defined.  JSON values are modelled by the
inductive type `J`; numbers, booleans and null never occur in the
files this program reads or writes and are omitted.
-/

/-- JSON values as far as this program's tag files use them. -/
inductive J where
  | str : String → J
  | arr : List J → J
  | obj : List (String × J) → J

/-- Result of trying to read the tags file: the file is absent, the file
cannot be read or parsed (open or json.load raises), or it holds a value. -/
inductive TagsFile where
  | missing
  | unparsable
  | content (data : J)

/-- Value of one entry of `tag_definitions`.  The Python value is a dict;
`description` and `color` are `none` when the corresponding key is absent
(`save_speaker_tags` substitutes defaults for them).  A missing "speakers"
key is identified with an empty speaker map: no code path of the program
distinguishes the two except by raising, which the loader models as a load
error. -/
structure TagData where
  description : Option String
  color : Option String
  speakers : List (String × List String)
deriving DecidableEq

/-- In-memory state of a `SpeakerService`: the four data fields of the
Python object (the `tags_file` path plays no role in the data model). -/
structure SpeakerService where
  speaker_tags : List (String × List (String × List String))
  tag_definitions : List (String × TagData)
  downloaded_models : List String
  available_models : List String
deriving DecidableEq

/-- State of a freshly constructed service before `load_speaker_tags`
runs, and the state the loader's error handler resets to. -/
def emptyService : SpeakerService :=
  { speaker_tags := [], tag_definitions := [], downloaded_models := [],
    available_models := [] }

/-! ### Python dict and set primitives -/

/-- Dictionary lookup (first entry with the key). -/
def dGet : List (String × α) → String → Option α
  | [], _ => none
  | kv :: rest, k => if kv.1 = k then some kv.2 else dGet rest k

/-- Python `k in d` for a dict. -/
def dMem (d : List (String × α)) (k : String) : Bool :=
  (dGet d k).isSome

/-- Python `d[k] = v`: replace in place when the key exists, append when
it is fresh. -/
def dSet : List (String × α) → String → α → List (String × α)
  | [], k, v => [(k, v)]
  | kv :: rest, k, v => if kv.1 = k then (k, v) :: rest else kv :: dSet rest k v

/-- Python `del d[k]` (the key is unique in a dict). -/
def dDel : List (String × α) → String → List (String × α)
  | [], _ => []
  | kv :: rest, k => if kv.1 = k then rest else kv :: dDel rest k

/-- Keys of a dict in order. -/
def dKeys (d : List (String × α)) : List String :=
  d.map (·.1)

/-- The Python idiom `if k not in d: d[k] = v` — ensure a key exists. -/
def ensure (d : List (String × α)) (k : String) (v : α) : List (String × α) :=
  if dMem d k then d else dSet d k v

/-- Python `x in s` for a set of strings. -/
def sMem : List String → String → Bool
  | [], _ => false
  | y :: rest, x => if y = x then true else sMem rest x

/-- Python `s.add(x)` on a set. -/
def sAdd (s : List String) (x : String) : List String :=
  if sMem s x then s else s ++ [x]

/-- Python `s.discard(x)` on a set. -/
def sDiscard : List String → String → List String
  | [], _ => []
  | y :: rest, x => if y = x then sDiscard rest x else y :: sDiscard rest x

/-- Python `set(elems)` built from a list of strings. -/
def sOfList (l : List String) : List String :=
  l.foldl sAdd []

/-- Python `list.remove(x)`: drop the first occurrence. -/
def listRemove : List String → String → List String
  | [], _ => []
  | y :: rest, x => if y = x then rest else y :: listRemove rest x

/-- Number of occurrences of a string in a list. -/
def sCount : List String → String → Nat
  | [], _ => 0
  | y :: rest, x => (if y = x then 1 else 0) + sCount rest x

/-- Python `s.copy()` on a set of strings. -/
def sCopy (s : List String) : List String :=
  s.foldl (fun acc x => acc ++ [x]) []

/-! ### Loading and saving the tags file

`load_speaker_tags` (speaker_service.py lines 21-153) reads the JSON file
and detects its format.  Any exception raised while reading or interpreting
the file is caught and the handler resets all four fields to empty; the
interpretation is therefore written in the `Except Unit` monad, whose
`error` outcome stands for a raised exception.  Interpretation steps that
CPython would accept on JSON values of unexpected types the program never
writes (for example iterating a string where a list is expected) are
modelled as errors; every file in one of the formats the program handles
is interpreted exactly as the source does. -/

/-- Python `k in data` on a JSON value: key membership for an object,
element membership for an array, substring test for a string. -/
def jHasKey : J → String → Bool
  | .obj kvs, k => dMem kvs k
  | .arr l, k => l.any (fun j => match j with | .str s => s = k | _ => false)
  | .str s, k =>
      (List.range (s.length + 1)).any
        (fun i => (s.toList.drop i).take k.length = k.toList)

/-- Python `data.get(k, default)`: raises (errors) unless the receiver is
an object. -/
def jGet : J → String → J → Except Unit J
  | .obj kvs, k, dflt => .ok ((dGet kvs k).getD dflt)
  | _, _, _ => .error ()

/-- Python truthiness of a JSON value. -/
def jTruthy : J → Bool
  | .str s => s ≠ ""
  | .arr l => !l.isEmpty
  | .obj kvs => !kvs.isEmpty

/-- Python `any("speakers" in tag_data for tag_data in tags_data.values())`:
`.values()` raises unless the receiver is an object. -/
def anySpeakersKey : J → Except Unit Bool
  | .obj kvs => .ok (kvs.any (fun kv => jHasKey kv.2 "speakers"))
  | _ => .error ()

/-- Python iteration of a JSON value as a sequence of strings: a string
yields its characters, an array its elements (which must be strings to be
usable as dict keys or set members downstream), an object its keys. -/
def pyStrIter : J → Except Unit (List String)
  | .str s => .ok (s.toList.map (fun c => String.mk [c]))
  | .arr l => l.mapM (fun j => match j with | .str s => Except.ok s | _ => .error ())
  | .obj kvs => .ok (kvs.map (·.1))

/-- Python `set(x)` over a JSON value. -/
def pyStrSet (x : J) : Except Unit (List String) :=
  Except.map sOfList (pyStrIter x)

/-- Reads an optional string field of a tag-definition object. -/
def parseOptStr : Option J → Except Unit (Option String)
  | none => .ok none
  | some (.str s) => .ok (some s)
  | some _ => .error ()

/-- Reads a "speakers" value: an object mapping model names to arrays of
speaker-name strings. -/
def parseSpeakersMap : J → Except Unit (List (String × List String))
  | .obj kvs => kvs.mapM (fun kv =>
      match kv.2 with
      | .arr l => Except.map (fun ss => (kv.1, ss))
          (l.mapM (fun j => match j with | .str s => Except.ok s | _ => .error ()))
      | _ => .error ())
  | _ => .error ()

/-- Reads one value of the `_tags` object into a `TagData`. -/
def parseTagData : J → Except Unit TagData
  | .obj kvs => do
      let d ← parseOptStr (dGet kvs "description")
      let c ← parseOptStr (dGet kvs "color")
      let sp ← match dGet kvs "speakers" with
        | none => Except.ok []
        | some j => parseSpeakersMap j
      .ok { description := d, color := c, speakers := sp }
  | _ => .error ()

/-- Reads a whole `_tags` object. -/
def parseTags : J → Except Unit (List (String × TagData))
  | .obj kvs => kvs.mapM (fun kv => Except.map (fun td => (kv.1, td)) (parseTagData kv.2))
  | _ => .error ()

/-- Reads a nested mapping model -> speaker -> sequence-of-tag-strings, the
shape used by `_speakers` (v1.2), `speaker_tags` (v1.1) and the whole file
in the legacy branch.  Tag sequences are read by `pyStrIter`, keeping order
and duplicates exactly as Python's `for tag in tags` sees them. -/
def parseShape : J → Except Unit (List (String × List (String × List String)))
  | .obj models => models.mapM (fun mkv =>
      match mkv.2 with
      | .obj speakers => Except.map (fun l => (mkv.1, l))
          (speakers.mapM (fun skv =>
            Except.map (fun tags => (skv.1, tags)) (pyStrIter skv.2)))
      | _ => .error ())
  | _ => .error ()

/-- Builds `speaker_tags` from loaded tag definitions (lines 38-47): for
each tag, each model and each listed speaker, ensure the nested entries
exist and add the tag to the speaker's set. -/
def buildSpeakerTags (tds : List (String × TagData)) :
    List (String × List (String × List String)) :=
  tds.foldl (fun st0 tagkv =>
    tagkv.2.speakers.foldl (fun st1 mkv =>
      let st1 := ensure st1 mkv.1 []
      mkv.2.foldl (fun st2 speaker =>
        let inner := ensure ((dGet st2 mkv.1).getD []) speaker []
        let tags := (dGet inner speaker).getD []
        dSet st2 mkv.1 (dSet inner speaker (sAdd tags tagkv.1))) st1) st0) []

/-- Builds `speaker_tags` from a parsed model -> speaker -> tags shape
(lines 68-72 and 82-87): each speaker's tag list becomes a set. -/
def buildFromShape (shape : List (String × List (String × List String))) :
    List (String × List (String × List String)) :=
  shape.foldl (fun st mkv =>
    dSet st mkv.1 (mkv.2.foldl (fun inner skv => dSet inner skv.1 (sOfList skv.2)) []))
    []

/-- All tags occurring in a `speaker_tags` structure, as a set
(lines 90-93 and 122-125). -/
def allTags (stags : List (String × List (String × List String))) : List String :=
  stags.foldl (fun acc mkv =>
    mkv.2.foldl (fun acc skv => skv.2.foldl sAdd acc) acc) []

/-- Appends one speaker under one model of one tag's definition, creating
the model entry when absent (lines 63-65, 104-106 and 136-138). -/
def appendSpeaker (tds : List (String × TagData)) (tag model speaker : String) :
    List (String × TagData) :=
  let td := (dGet tds tag).getD { description := none, color := none, speakers := [] }
  let sp := ensure td.speakers model []
  let lst := (dGet sp model).getD []
  dSet tds tag { td with speakers := dSet sp model (lst ++ [speaker]) }

/-- Fills tag definitions from a built `speaker_tags` structure, the v1.1
and legacy conversion loop (lines 101-106 and 133-138; every tag met is
already a key of `tds0` there, so the loop has no membership guard). -/
def fillFromSpeakerTags (tds0 : List (String × TagData))
    (stags : List (String × List (String × List String))) :
    List (String × TagData) :=
  stags.foldl (fun tds mkv =>
    mkv.2.foldl (fun tds skv =>
      skv.2.foldl (fun tds tag => appendSpeaker tds tag mkv.1 skv.1) tds) tds) tds0

/-- Fills tag definitions from the parsed `_speakers` shape, the v1.2
conversion loop (lines 59-65): tags with no definition are skipped. -/
def fillFromSpeakersShape (tds0 : List (String × TagData))
    (shape : List (String × List (String × List String))) :
    List (String × TagData) :=
  shape.foldl (fun tds mkv =>
    mkv.2.foldl (fun tds skv =>
      skv.2.foldl (fun tds tag =>
        if dMem tds tag then appendSpeaker tds tag mkv.1 skv.1 else tds) tds) tds)
    tds0

/-- Fresh tag definitions with default description and color for a set of
tags (lines 95 and 127). -/
def defaultTagDefs (tags : List String) : List (String × TagData) :=
  tags.map (fun tag =>
    (tag, { description := some ("Tag: " ++ tag), color := some "#808080",
            speakers := ([] : List (String × List String)) }))

/-- Resets every tag definition's speaker map to empty (lines 56-57,
98-99 and 130-131). -/
def clearSpeakers (tds : List (String × TagData)) : List (String × TagData) :=
  tds.map (fun kv => (kv.1, { kv.2 with speakers := [] }))

/-- Interpretation of a parsed tags file against the prior state: the body
of `load_speaker_tags` between `json.load` and the exception handler
(lines 28-142).  When no branch fires the fields keep their prior values. -/
def loadCore (prior : SpeakerService) (data : J) : Except Unit SpeakerService := do
  if jHasKey data "_metadata" && jHasKey data "_tags" then
    let tags_data ← jGet data "_tags" (J.obj [])
    let isV13 ←
      if jTruthy tags_data then anySpeakersKey tags_data else Except.ok false
    if isV13 then
      -- new tag-centric format (v1.3+)
      let tds ← parseTags tags_data
      let models ← jGet data "_models" (J.obj [])
      let downloaded ← pyStrSet (← jGet models "downloaded" (J.arr []))
      let available ← pyStrIter (← jGet models "available" (J.arr []))
      .ok { speaker_tags := buildSpeakerTags tds, tag_definitions := tds,
            downloaded_models := downloaded, available_models := available }
    else if jHasKey data "_speakers" then
      -- model-agnostic format (v1.2)
      let tds ← parseTags tags_data
      let shape ← parseShape (← jGet data "_speakers" (J.obj []))
      let tds := fillFromSpeakersShape (clearSpeakers tds) shape
      let stags := buildFromShape shape
      let models ← jGet data "_models" (J.obj [])
      let downloaded ← pyStrSet (← jGet models "downloaded" (J.arr []))
      let available ← pyStrIter (← jGet models "available" (J.arr []))
      .ok { speaker_tags := stags, tag_definitions := tds,
            downloaded_models := downloaded, available_models := available }
    else if jHasKey data "speaker_tags" then
      -- old format with metadata (v1.1)
      let shape ← parseShape (← jGet data "speaker_tags" (J.obj []))
      let stags := buildFromShape shape
      let tds := clearSpeakers (defaultTagDefs (allTags stags))
      let tds := fillFromSpeakerTags tds stags
      let models ← jGet data "_models" (J.obj [])
      let downloaded ← pyStrSet (← jGet models "downloaded" (J.arr []))
      let available ← pyStrIter (← jGet models "available" (J.arr []))
      .ok { speaker_tags := stags, tag_definitions := tds,
            downloaded_models := downloaded, available_models := available }
    else
      -- legacy format: the whole file is read as model -> speaker -> tags
      let shape ← parseShape data
      let stags := buildFromShape shape
      let tds := clearSpeakers (defaultTagDefs (allTags stags))
      let tds := fillFromSpeakerTags tds stags
      .ok { speaker_tags := stags, tag_definitions := tds,
            downloaded_models := sOfList (dKeys stags),
            available_models := dKeys stags }
  else
    .ok prior

/-- Method `load_speaker_tags` (lines 21-153): a missing file resets the
fields to empty (lines 143-147); an unreadable or unparsable file raises
in `open` or `json.load` and the handler resets to empty (lines 148-153);
any exception raised while interpreting a parsed value is caught by the
same handler. -/
def load_speaker_tags (prior : SpeakerService) (file : TagsFile) : SpeakerService :=
  match file with
  | .missing => emptyService
  | .unparsable => emptyService
  | .content data =>
    match loadCore prior data with
    | .ok st => st
    | .error _ => emptyService

/-- One entry written under `_tags` by `save_speaker_tags` (lines 172-177):
exactly a description (defaulted when absent), a color (defaulted when
absent) and the per-model speaker lists. -/
def tagJson (tag_name : String) (td : TagData) : J :=
  J.obj
    [("description", J.str (td.description.getD ("Tag: " ++ tag_name))),
     ("color", J.str (td.color.getD "#808080")),
     ("speakers", J.obj (td.speakers.map (fun m => (m.1, J.arr (m.2.map J.str)))))]

/-- Method `save_speaker_tags` (lines 155-182): the JSON value written to
the file.  Defaults substitute a missing description or color. -/
def save_speaker_tags (st : SpeakerService) : J :=
  J.obj
    [("_metadata", J.obj
        [("version", J.str "1.3"),
         ("description", J.str "TTS Tester data with tag-centric organization - one tag to many models/speakers")]),
     ("_models", J.obj
        [("downloaded", J.arr (st.downloaded_models.map J.str)),
         ("available", J.arr (st.available_models.map J.str))]),
     ("_tags", J.obj (st.tag_definitions.map (fun kv => (kv.1, tagJson kv.1 kv.2))))]

/-! ### Mutating and querying operations of SpeakerService

Each method that mutates the object is translated as a function from the
old state to the new state, paired with the method's return value. -/

/-- Lines 208-212 of `add_tag_to_speaker`: ensure the model's entry of a
tag's speaker map exists and append the speaker unless already listed. -/
def addSpeakers (sp0 : List (String × List String)) (model speaker : String) :
    List (String × List String) :=
  let sp := ensure sp0 model []
  let lst := (dGet sp model).getD []
  if sMem lst speaker then sp else dSet sp model (lst ++ [speaker])

/-- Method `add_tag_to_speaker` (speaker_service.py lines 184-214). -/
def add_tag_to_speaker (st : SpeakerService) (model_name speaker tag : String) :
    Bool × SpeakerService :=
  if model_name = "" ∨ speaker = "" ∨ tag = "" then (false, st)
  else
    let stags := ensure st.speaker_tags model_name []
    let inner := ensure ((dGet stags model_name).getD []) speaker []
    let tags := (dGet inner speaker).getD []
    let stags := dSet stags model_name (dSet inner speaker (sAdd tags tag))
    let tds := ensure st.tag_definitions tag
      { description := some ("Tag: " ++ tag), color := some "#808080",
        speakers := [] }
    let td := (dGet tds tag).getD { description := none, color := none, speakers := [] }
    let tds := dSet tds tag { td with speakers := addSpeakers td.speakers model_name speaker }
    (true, { st with speaker_tags := stags, tag_definitions := tds })

/-- Method `remove_tag_from_speaker` (lines 216-233). -/
def remove_tag_from_speaker (st : SpeakerService) (model_name speaker tag : String) :
    Bool × SpeakerService :=
  match dGet st.speaker_tags model_name with
  | none => (false, st)
  | some inner =>
    match dGet inner speaker with
    | none => (false, st)
    | some tags =>
      if sMem tags tag then
        let stags := dSet st.speaker_tags model_name
          (dSet inner speaker (sDiscard tags tag))
        let tds :=
          match dGet st.tag_definitions tag with
          | none => st.tag_definitions
          | some td =>
            if dMem td.speakers model_name then
              let lst := (dGet td.speakers model_name).getD []
              if sMem lst speaker then
                let lst := listRemove lst speaker
                let sp :=
                  if lst = [] then dDel td.speakers model_name
                  else dSet td.speakers model_name lst
                dSet st.tag_definitions tag { td with speakers := sp }
              else st.tag_definitions
            else st.tag_definitions
        (true, { st with speaker_tags := stags, tag_definitions := tds })
      else (false, st)

/-- Method `get_speaker_tags` (lines 235-240): the stored set is returned
as a copy. -/
def get_speaker_tags (st : SpeakerService) (model_name speaker : String) :
    List String :=
  match dGet st.speaker_tags model_name with
  | some inner =>
    match dGet inner speaker with
    | some tags => sCopy tags
    | none => []
  | none => []

/-- Method `get_speakers_with_tag` (lines 250-257). -/
def get_speakers_with_tag (st : SpeakerService) (model_name tag : String) :
    List String :=
  match dGet st.speaker_tags model_name with
  | some inner =>
    inner.foldl (fun speakers skv =>
      if sMem skv.2 tag then speakers ++ [skv.1] else speakers) []
  | none => []

/-- Method `remove_speaker` (lines 259-265). -/
def remove_speaker (st : SpeakerService) (model_name speaker : String) :
    Bool × SpeakerService :=
  match dGet st.speaker_tags model_name with
  | none => (false, st)
  | some inner =>
    if dMem inner speaker then
      let stags := dSet st.speaker_tags model_name (dDel inner speaker)
      (true, { st with speaker_tags := stags })
    else (false, st)

/-- Method `remove_model` (lines 267-272). -/
def remove_model (st : SpeakerService) (model_name : String) :
    Bool × SpeakerService :=
  if dMem st.speaker_tags model_name then
    (true, { st with speaker_tags := dDel st.speaker_tags model_name })
  else (false, st)

/-- Method `mark_model_downloaded` (lines 321-326). -/
def mark_model_downloaded (st : SpeakerService) (model_name : String) :
    Bool × SpeakerService :=
  if sMem st.downloaded_models model_name then (false, st)
  else (true, { st with downloaded_models := sAdd st.downloaded_models model_name })

/-- Method `mark_model_not_downloaded` (lines 328-333). -/
def mark_model_not_downloaded (st : SpeakerService) (model_name : String) :
    Bool × SpeakerService :=
  if sMem st.downloaded_models model_name then
    (true, { st with downloaded_models := sDiscard st.downloaded_models model_name })
  else (false, st)

/-- Method `is_model_downloaded` (lines 335-337). -/
def is_model_downloaded (st : SpeakerService) (model_name : String) : Bool :=
  sMem st.downloaded_models model_name

/-- Method `get_downloaded_models` (lines 339-341). -/
def get_downloaded_models (st : SpeakerService) : List String :=
  st.downloaded_models

/-- Method `get_undownloaded_models` (lines 343-345). -/
def get_undownloaded_models (st : SpeakerService) : List String :=
  st.available_models.filter (fun model => !sMem st.downloaded_models model)

/-- Method `add_tag_definition` (lines 359-365). -/
def add_tag_definition (st : SpeakerService) (tag_name description color : String) :
    SpeakerService :=
  let tds := dSet st.tag_definitions tag_name
    { description := some description, color := some color, speakers := [] }
  { st with tag_definitions := tds }

/-- Method `remove_tag_definition` (lines 367-379). -/
def remove_tag_definition (st : SpeakerService) (tag_name : String) :
    Bool × SpeakerService :=
  if dMem st.tag_definitions tag_name then
    let tds := dDel st.tag_definitions tag_name
    let stags := st.speaker_tags.map (fun mkv =>
      (mkv.1, mkv.2.map (fun skv => (skv.1, sDiscard skv.2 tag_name))))
    (true, { st with tag_definitions := tds, speaker_tags := stags })
  else (false, st)

/-! ### Basic lemmas about the dict and set primitives -/

/-- Number of entries of a dict carrying a given key. -/
def dCount : List (String × α) → String → Nat
  | [], _ => 0
  | kv :: rest, k => (if kv.1 = k then 1 else 0) + dCount rest k

theorem dGet_dSet_self (d : List (String × α)) (k : String) (v : α) :
    dGet (dSet d k v) k = some v := by
  induction d with
  | nil => simp [dGet, dSet]
  | cons kv rest ih =>
    by_cases h : kv.1 = k
    · simp [dSet, dGet, h]
    · simp [dSet, dGet, h, ih]

theorem dGet_dSet_ne (d : List (String × α)) (k k' : String) (v : α)
    (h : k' ≠ k) : dGet (dSet d k v) k' = dGet d k' := by
  induction d with
  | nil => simp [dGet, dSet, Ne.symm h]
  | cons kv rest ih =>
    by_cases hk : kv.1 = k
    · have hkv : ¬kv.1 = k' := by rw [hk]; exact Ne.symm h
      rw [dSet, if_pos hk]
      show (if k = k' then some v else dGet rest k') = _
      rw [if_neg (Ne.symm h)]
      show _ = if kv.1 = k' then some kv.2 else dGet rest k'
      rw [if_neg hkv]
    · rw [dSet, if_neg hk]
      show (if kv.1 = k' then some kv.2 else dGet (dSet rest k v) k') = _
      rw [ih]
      rfl

theorem dGet_dDel_ne (d : List (String × α)) (k k' : String)
    (h : k' ≠ k) : dGet (dDel d k) k' = dGet d k' := by
  induction d with
  | nil => simp [dDel]
  | cons kv rest ih =>
    by_cases hk : kv.1 = k
    · have hkv : ¬kv.1 = k' := by rw [hk]; exact Ne.symm h
      rw [dDel, if_pos hk]
      show _ = if kv.1 = k' then some kv.2 else dGet rest k'
      rw [if_neg hkv]
    · rw [dDel, if_neg hk]
      show (if kv.1 = k' then some kv.2 else dGet (dDel rest k) k') = _
      rw [ih]
      rfl

theorem dGet_none_of_dCount_zero (d : List (String × α)) (k : String)
    (h : dCount d k = 0) : dGet d k = none := by
  induction d with
  | nil => simp [dGet]
  | cons kv rest ih =>
    rw [dCount] at h
    by_cases hk : kv.1 = k
    · rw [if_pos hk] at h
      omega
    · rw [if_neg hk] at h
      rw [dGet, if_neg hk]
      exact ih (by omega)

theorem dGet_dDel_self (d : List (String × α)) (k : String)
    (h : dCount d k ≤ 1) : dGet (dDel d k) k = none := by
  induction d with
  | nil => simp [dDel, dGet]
  | cons kv rest ih =>
    rw [dCount] at h
    by_cases hk : kv.1 = k
    · rw [if_pos hk] at h
      rw [dDel, if_pos hk]
      exact dGet_none_of_dCount_zero rest k (by omega)
    · rw [if_neg hk] at h
      rw [dDel, if_neg hk, dGet, if_neg hk]
      exact ih (by omega)

theorem dGet_ensure_self (d : List (String × α)) (k : String) (v : α) :
    dGet (ensure d k v) k = some ((dGet d k).getD v) := by
  unfold ensure dMem
  cases h : dGet d k with
  | none => simp [h, dGet_dSet_self]
  | some w => simp [h]

theorem dGet_ensure_ne (d : List (String × α)) (k k' : String) (v : α)
    (h : k' ≠ k) : dGet (ensure d k v) k' = dGet d k' := by
  unfold ensure
  by_cases hm : dMem d k
  · simp [hm]
  · simp [hm, dGet_dSet_ne _ _ _ _ h]

theorem dCount_dSet_self (d : List (String × α)) (k : String) (v : α) :
    dCount (dSet d k v) k = max (dCount d k) 1 := by
  induction d with
  | nil => simp [dSet, dCount]
  | cons kv rest ih =>
    by_cases hk : kv.1 = k
    · rw [dSet, if_pos hk]
      show (if k = k then 1 else 0) + dCount rest k = _
      rw [dCount, if_pos hk, if_pos rfl]
      omega
    · rw [dSet, if_neg hk]
      show (if kv.1 = k then 1 else 0) + dCount (dSet rest k v) k = _
      rw [if_neg hk, ih, dCount, if_neg hk]
      omega

theorem dCount_dSet_ne (d : List (String × α)) (k k' : String) (v : α)
    (h : k' ≠ k) : dCount (dSet d k v) k' = dCount d k' := by
  induction d with
  | nil =>
    show (if k = k' then 1 else 0) + 0 = 0
    rw [if_neg (Ne.symm h)]
  | cons kv rest ih =>
    by_cases hk : kv.1 = k
    · have hkv : ¬kv.1 = k' := by rw [hk]; exact Ne.symm h
      rw [dSet, if_pos hk]
      show (if k = k' then 1 else 0) + dCount rest k' = _
      rw [if_neg (Ne.symm h), dCount, if_neg hkv]
    · rw [dSet, if_neg hk]
      show (if kv.1 = k' then 1 else 0) + dCount (dSet rest k v) k' = _
      rw [ih, dCount]

theorem dCount_dDel_le (d : List (String × α)) (k k' : String) :
    dCount (dDel d k) k' ≤ dCount d k' := by
  induction d with
  | nil => simp [dDel]
  | cons kv rest ih =>
    by_cases hk : kv.1 = k
    · rw [dDel, if_pos hk, dCount]
      omega
    · rw [dDel, if_neg hk, dCount, dCount]
      omega

theorem dCount_ensure_le (d : List (String × α)) (k k' : String) (v : α)
    (h : dCount d k' ≤ 1) : dCount (ensure d k v) k' ≤ 1 := by
  unfold ensure
  by_cases hm : dMem d k
  · simpa [hm]
  · by_cases hk : k' = k
    · subst hk
      rw [if_neg hm, dCount_dSet_self]
      omega
    · rw [if_neg hm, dCount_dSet_ne _ _ _ _ hk]
      exact h

theorem dCount_dSet_le (d : List (String × α)) (k k' : String) (v : α)
    (h : dCount d k' ≤ 1) : dCount (dSet d k v) k' ≤ 1 := by
  by_cases hk : k' = k
  · subst hk
    rw [dCount_dSet_self]
    omega
  · rwa [dCount_dSet_ne _ _ _ _ hk]

theorem dSet_eq_self (d : List (String × α)) (k : String) (v : α)
    (h : dGet d k = some v) : dSet d k v = d := by
  induction d with
  | nil => simp [dGet] at h
  | cons kv rest ih =>
    by_cases hk : kv.1 = k
    · rw [dGet, if_pos hk] at h
      have h2 : kv.2 = v := by injection h
      rw [dSet, if_pos hk, ← hk, ← h2]
    · rw [dGet, if_neg hk] at h
      rw [dSet, if_neg hk, ih h]

theorem dGet_map_keyed (f : String → β → γ) (d : List (String × β)) (k : String) :
    dGet (d.map (fun kv => (kv.1, f kv.1 kv.2))) k = (dGet d k).map (f k) := by
  induction d with
  | nil => simp [dGet]
  | cons kv rest ih =>
    by_cases hk : kv.1 = k
    · subst hk
      simp [dGet]
    · simp [dGet, hk, ih]

theorem sMem_iff_mem (l : List String) (x : String) :
    sMem l x = true ↔ x ∈ l := by
  induction l with
  | nil => simp [sMem]
  | cons y rest ih =>
    by_cases h : y = x
    · simp [sMem, h]
    · rw [sMem, if_neg h, ih, List.mem_cons]
      have : ¬x = y := Ne.symm h
      simp [this]

theorem sMem_pos_iff (l : List String) (x : String) :
    sMem l x = true ↔ 0 < sCount l x := by
  induction l with
  | nil => simp [sMem, sCount]
  | cons y rest ih =>
    by_cases h : y = x
    · rw [sMem, if_pos h, sCount, if_pos h]
      simp
    · rw [sMem, if_neg h, sCount, if_neg h, ih]
      simp

theorem sMem_false_iff (l : List String) (x : String) :
    sMem l x = false ↔ sCount l x = 0 := by
  have h := sMem_pos_iff l x
  constructor
  · intro hf
    by_contra hc
    have := h.mpr (by omega)
    rw [hf] at this
    exact Bool.false_ne_true this
  · intro h0
    cases hm : sMem l x with
    | false => rfl
    | true => have := h.mp hm; omega

theorem sCount_append (l l' : List String) (x : String) :
    sCount (l ++ l') x = sCount l x + sCount l' x := by
  induction l with
  | nil => simp [sCount]
  | cons y rest ih =>
    rw [List.cons_append, sCount, sCount, ih]
    omega

theorem sCount_sAdd_self (l : List String) (x : String) :
    sCount (sAdd l x) x = max (sCount l x) 1 := by
  unfold sAdd
  cases hm : sMem l x with
  | true =>
    have := (sMem_pos_iff l x).mp hm
    rw [if_pos rfl]
    omega
  | false =>
    have h0 := (sMem_false_iff l x).mp hm
    rw [if_neg (by simp), sCount_append, h0, sCount, sCount, if_pos rfl]
    omega

theorem sCount_sAdd_ne (l : List String) (x y : String) (h : y ≠ x) :
    sCount (sAdd l x) y = sCount l y := by
  unfold sAdd
  cases hm : sMem l x with
  | true => rw [if_pos rfl]
  | false =>
    rw [if_neg (by simp), sCount_append, sCount, sCount, if_neg (Ne.symm h)]
    omega

theorem sCount_sDiscard_self (l : List String) (x : String) :
    sCount (sDiscard l x) x = 0 := by
  induction l with
  | nil => simp [sDiscard, sCount]
  | cons y rest ih =>
    by_cases h : y = x
    · rw [sDiscard, if_pos h]
      exact ih
    · rw [sDiscard, if_neg h, sCount, if_neg h, ih]

theorem sCount_sDiscard_ne (l : List String) (x y : String) (h : y ≠ x) :
    sCount (sDiscard l x) y = sCount l y := by
  induction l with
  | nil => simp [sDiscard]
  | cons z rest ih =>
    by_cases hz : z = x
    · have hzy : ¬z = y := by rw [hz]; exact Ne.symm h
      rw [sDiscard, if_pos hz, ih, sCount, if_neg hzy]
      omega
    · rw [sDiscard, if_neg hz, sCount, sCount, ih]

theorem sCount_listRemove_self (l : List String) (x : String) :
    sCount (listRemove l x) x = sCount l x - 1 := by
  induction l with
  | nil => simp [listRemove, sCount]
  | cons y rest ih =>
    by_cases h : y = x
    · rw [listRemove, if_pos h, sCount, if_pos h]
      omega
    · rw [listRemove, if_neg h, sCount, if_neg h, ih, sCount, if_neg h]
      omega

theorem sCount_listRemove_ne (l : List String) (x y : String) (h : y ≠ x) :
    sCount (listRemove l x) y = sCount l y := by
  induction l with
  | nil => simp [listRemove]
  | cons z rest ih =>
    by_cases hz : z = x
    · have hzy : ¬z = y := by rw [hz]; exact Ne.symm h
      rw [listRemove, if_pos hz, sCount, if_neg hzy]
      omega
    · rw [listRemove, if_neg hz, sCount, sCount, ih]

theorem sMem_sAdd_iff (l : List String) (x y : String) :
    sMem (sAdd l x) y = true ↔ (sMem l y = true ∨ y = x) := by
  by_cases h : y = x
  · subst h
    rw [sMem_pos_iff, sCount_sAdd_self]
    simp
  · rw [sMem_pos_iff, sCount_sAdd_ne _ _ _ h, ← sMem_pos_iff]
    simp [h]

theorem sMem_sDiscard_iff (l : List String) (x y : String) :
    sMem (sDiscard l x) y = true ↔ (sMem l y = true ∧ y ≠ x) := by
  by_cases h : y = x
  · subst h
    rw [sMem_pos_iff, sCount_sDiscard_self]
    simp
  · rw [sMem_pos_iff, sCount_sDiscard_ne _ _ _ h, ← sMem_pos_iff]
    simp [h]

theorem sMem_append_single (l : List String) (x y : String) :
    sMem (l ++ [x]) y = true ↔ (sMem l y = true ∨ y = x) := by
  rw [sMem_pos_iff, sCount_append]
  by_cases h : y = x
  · subst h
    rw [sCount, sCount, if_pos rfl]
    simp
  · rw [sCount, sCount, if_neg (Ne.symm h)]
    simp only [Nat.add_zero]
    rw [← sMem_pos_iff]
    simp [h]

theorem sMem_listRemove_iff (l : List String) (x y : String)
    (h1 : sCount l x ≤ 1) :
    sMem (listRemove l x) y = true ↔ (sMem l y = true ∧ y ≠ x) := by
  by_cases h : y = x
  · subst h
    rw [sMem_pos_iff, sCount_listRemove_self]
    constructor
    · intro hc
      omega
    · intro hc
      exact absurd rfl hc.2
  · rw [sMem_pos_iff, sCount_listRemove_ne _ _ _ h, ← sMem_pos_iff]
    simp [h]

theorem sCount_sAdd_le (l : List String) (x y : String)
    (h : sCount l y ≤ 1) : sCount (sAdd l x) y ≤ 1 := by
  by_cases hy : y = x
  · subst hy
    rw [sCount_sAdd_self]
    omega
  · rwa [sCount_sAdd_ne _ _ _ hy]

theorem sCount_sOfList_le (l : List String) (x : String) :
    sCount (sOfList l) x ≤ 1 := by
  suffices h : ∀ acc, (∀ y, sCount acc y ≤ 1) → ∀ y, sCount (l.foldl sAdd acc) y ≤ 1 by
    exact h [] (fun y => by simp [sCount]) x
  induction l with
  | nil =>
    intro acc hacc y
    simpa [List.foldl] using hacc y
  | cons z rest ih =>
    intro acc hacc y
    rw [List.foldl]
    exact ih (sAdd acc z) (fun y' => sCount_sAdd_le acc z y' (hacc y')) y

theorem sCopy_eq (s : List String) : sCopy s = s := by
  unfold sCopy
  suffices h : ∀ acc, s.foldl (fun acc x => acc ++ [x]) acc = acc ++ s by
    simpa using h []
  induction s with
  | nil => simp
  | cons y rest ih =>
    intro acc
    rw [List.foldl, ih]
    simp

/-! ### The two tag indexes and their consistency invariant -/

/-- Tag set recorded for a speaker of a model in `speaker_tags` (empty
when the model or speaker is unknown). -/
def speakerTagsOf (st : SpeakerService) (m s : String) : List String :=
  ((dGet st.speaker_tags m).bind (fun inner => dGet inner s)).getD []

/-- Tag `t` is on speaker `s` of model `m` according to `speaker_tags`. -/
def TagOn (st : SpeakerService) (m s t : String) : Prop :=
  sMem (speakerTagsOf st m s) t = true

/-- Speaker list recorded for a model under a tag's definition (empty when
the tag or model is unknown). -/
def tagSpeakersOf (st : SpeakerService) (t m : String) : List String :=
  (((dGet st.tag_definitions t).map TagData.speakers).bind
    (fun sp => dGet sp m)).getD []

/-- Speaker `s` of model `m` is listed under tag `t` in `tag_definitions`. -/
def ListedUnder (st : SpeakerService) (m s t : String) : Prop :=
  sMem (tagSpeakersOf st t m) s = true

/-- Consistency of the two indexes: a tag is on a speaker in the
`speaker_tags` view exactly when the speaker is listed under the tag in
the `tag_definitions` view. -/
def ConsistencyInv (st : SpeakerService) : Prop :=
  ∀ m s t, TagOn st m s t ↔ ListedUnder st m s t

/-- Well-formedness of the per-tag speaker maps: model keys occur at most
once and each speaker list is duplicate-free. -/
def SpNodup (tds : List (String × TagData)) : Prop :=
  ∀ t td, dGet tds t = some td →
    (∀ m, dCount td.speakers m ≤ 1) ∧
    (∀ m l, dGet td.speakers m = some l → ∀ s, sCount l s ≤ 1)

/-- Inductive invariant for the mutating operations: consistency,
well-formed speaker maps, and unique tag keys. -/
def GoodState (st : SpeakerService) : Prop :=
  ConsistencyInv st ∧ SpNodup st.tag_definitions ∧
    (∀ k, dCount st.tag_definitions k ≤ 1)

theorem speakerTagsOf_nested (st : SpeakerService) (m s : String) :
    speakerTagsOf st m s = (dGet ((dGet st.speaker_tags m).getD []) s).getD [] := by
  unfold speakerTagsOf
  cases h : dGet st.speaker_tags m <;> simp [h, dGet]

theorem tagSpeakersOf_nested (st : SpeakerService) (t m : String) (d : TagData)
    (hd : d.speakers = []) :
    tagSpeakersOf st t m = (dGet ((dGet st.tag_definitions t).getD d).speakers m).getD [] := by
  unfold tagSpeakersOf
  cases h : dGet st.tag_definitions t <;> simp [h, hd, dGet]

/-! ### Effect of add_tag_to_speaker on the two indexes -/

theorem add_fst (st : SpeakerService) (m s t : String)
    (h : ¬(m = "" ∨ s = "" ∨ t = "")) :
    (add_tag_to_speaker st m s t).1 = true := by
  simp only [add_tag_to_speaker, if_neg h]

theorem add_downloaded (st : SpeakerService) (m s t : String)
    (h : ¬(m = "" ∨ s = "" ∨ t = "")) :
    (add_tag_to_speaker st m s t).2.downloaded_models = st.downloaded_models := by
  simp only [add_tag_to_speaker, if_neg h]

theorem add_state (st : SpeakerService) (m s t : String)
    (h : ¬(m = "" ∨ s = "" ∨ t = "")) :
    (add_tag_to_speaker st m s t).2 =
      { speaker_tags :=
          dSet (ensure st.speaker_tags m []) m
            (dSet (ensure ((dGet (ensure st.speaker_tags m []) m).getD []) s []) s
              (sAdd ((dGet (ensure ((dGet (ensure st.speaker_tags m []) m).getD []) s [])
                s).getD []) t)),
        tag_definitions :=
          dSet
            (ensure st.tag_definitions t
              { description := some ("Tag: " ++ t), color := some "#808080",
                speakers := [] }) t
            { description :=
                ((dGet (ensure st.tag_definitions t
                  { description := some ("Tag: " ++ t), color := some "#808080",
                    speakers := [] }) t).getD
                  { description := none, color := none, speakers := [] }).description,
              color :=
                ((dGet (ensure st.tag_definitions t
                  { description := some ("Tag: " ++ t), color := some "#808080",
                    speakers := [] }) t).getD
                  { description := none, color := none, speakers := [] }).color,
              speakers :=
                addSpeakers
                  ((dGet (ensure st.tag_definitions t
                    { description := some ("Tag: " ++ t), color := some "#808080",
                      speakers := [] }) t).getD
                    { description := none, color := none, speakers := [] }).speakers
                  m s },
        downloaded_models := st.downloaded_models,
        available_models := st.available_models } := by
  rw [add_tag_to_speaker, if_neg h]

theorem optMapSome (f : α → β) (a : α) : Option.map f (some a) = some (f a) := rfl

theorem optSomeBind (a : α) (f : α → Option β) : (some a).bind f = f a := rfl

theorem optGetDSome (a d : α) : (some a).getD d = a := rfl

theorem speakerTagsOf_add (st : SpeakerService) (m s t m' s' : String)
    (h : ¬(m = "" ∨ s = "" ∨ t = "")) :
    speakerTagsOf (add_tag_to_speaker st m s t).2 m' s' =
      (if m' = m ∧ s' = s then sAdd (speakerTagsOf st m s) t
       else speakerTagsOf st m' s') := by
  rw [add_state st m s t h]
  by_cases hm' : m' = m
  · by_cases hs' : s' = s
    · rw [if_pos ⟨hm', hs'⟩, hm', hs']
      rw [speakerTagsOf]
      dsimp only
      simp only [dGet_dSet_self, Option.some_bind, Option.getD_some, dGet_ensure_self]
      rw [speakerTagsOf_nested]
    · rw [if_neg (show ¬(m' = m ∧ s' = s) from fun hc => hs' hc.2), hm']
      rw [speakerTagsOf]
      dsimp only
      simp only [dGet_dSet_self, Option.some_bind]
      rw [dGet_dSet_ne _ _ _ _ hs', dGet_ensure_ne _ _ _ _ hs']
      simp only [dGet_ensure_self, Option.getD_some]
      rw [speakerTagsOf_nested]
  · rw [if_neg (show ¬(m' = m ∧ s' = s) from fun hc => hm' hc.1)]
    rw [speakerTagsOf]
    dsimp only
    rw [dGet_dSet_ne _ _ _ _ hm', dGet_ensure_ne _ _ _ _ hm']
    rw [speakerTagsOf]

theorem tagSpeakersOf_add (st : SpeakerService) (m s t t' m' : String)
    (h : ¬(m = "" ∨ s = "" ∨ t = "")) :
    tagSpeakersOf (add_tag_to_speaker st m s t).2 t' m' =
      (if t' = t ∧ m' = m then
        (if sMem (tagSpeakersOf st t m) s then tagSpeakersOf st t m
         else tagSpeakersOf st t m ++ [s])
       else tagSpeakersOf st t' m') := by
  have hL : tagSpeakersOf st t m =
      (dGet ((dGet st.tag_definitions t).getD
        { description := some ("Tag: " ++ t), color := some "#808080",
          speakers := [] }).speakers m).getD [] :=
    tagSpeakersOf_nested st t m _ rfl
  rw [add_state st m s t h]
  by_cases ht' : t' = t
  · by_cases hm' : m' = m
    · rw [if_pos ⟨ht', hm'⟩, ht', hm']
      rw [tagSpeakersOf]
      dsimp only
      simp only [dGet_dSet_self, optMapSome, optSomeBind]
      rw [addSpeakers]
      simp only [dGet_ensure_self, Option.getD_some, dGet_ensure_self]
      rw [← hL]
      by_cases hmem : sMem (tagSpeakersOf st t m) s
      · rw [if_pos hmem, if_pos hmem]
        rw [dGet_ensure_self, optGetDSome, ← hL]
      · rw [if_neg hmem, if_neg hmem]
        rw [dGet_dSet_self, Option.getD_some]
    · rw [if_neg (show ¬(t' = t ∧ m' = m) from fun hc => hm' hc.2), ht']
      rw [tagSpeakersOf]
      dsimp only
      simp only [dGet_dSet_self, optMapSome, optSomeBind]
      rw [addSpeakers]
      simp only [dGet_ensure_self, Option.getD_some]
      by_cases hmem : sMem ((dGet ((dGet st.tag_definitions t).getD
          { description := some ("Tag: " ++ t), color := some "#808080",
            speakers := [] }).speakers m).getD []) s
      · rw [if_pos hmem]
        rw [dGet_ensure_ne _ _ _ _ hm']
        rw [tagSpeakersOf_nested st t m' _ (show TagData.speakers
          { description := some ("Tag: " ++ t), color := some "#808080",
            speakers := [] } = [] from rfl)]
      · rw [if_neg hmem]
        rw [dGet_dSet_ne _ _ _ _ hm', dGet_ensure_ne _ _ _ _ hm']
        rw [tagSpeakersOf_nested st t m' _ (show TagData.speakers
          { description := some ("Tag: " ++ t), color := some "#808080",
            speakers := [] } = [] from rfl)]
  · rw [if_neg (show ¬(t' = t ∧ m' = m) from fun hc => ht' hc.1)]
    rw [tagSpeakersOf]
    dsimp only
    rw [dGet_dSet_ne _ _ _ _ ht', dGet_ensure_ne _ _ _ _ ht']
    rw [tagSpeakersOf]

theorem addSpeakers_nodup (sp0 : List (String × List String)) (m s : String)
    (hc1 : ∀ k, dCount sp0 k ≤ 1)
    (hc2 : ∀ k l, dGet sp0 k = some l → ∀ x, sCount l x ≤ 1) :
    (∀ k, dCount (addSpeakers sp0 m s) k ≤ 1) ∧
    (∀ k l, dGet (addSpeakers sp0 m s) k = some l → ∀ x, sCount l x ≤ 1) := by
  have hsp1c : ∀ k, dCount (ensure sp0 m []) k ≤ 1 :=
    fun k => dCount_ensure_le sp0 m k [] (hc1 k)
  have hsp1l : ∀ k l, dGet (ensure sp0 m []) k = some l → ∀ x, sCount l x ≤ 1 := by
    intro k l hkl x
    by_cases hk : k = m
    · rw [hk, dGet_ensure_self] at hkl
      injection hkl with hv
      cases hg : dGet sp0 m with
      | none => rw [hg] at hv; rw [← hv]; simp [sCount]
      | some l0 => rw [hg] at hv; rw [← hv]; exact hc2 m l0 hg x
    · rw [dGet_ensure_ne _ _ _ _ hk] at hkl
      exact hc2 k l hkl x
  rw [addSpeakers]
  have hLmem : dGet (ensure sp0 m []) m = some ((dGet sp0 m).getD []) :=
    dGet_ensure_self _ _ _
  rw [hLmem, optGetDSome]
  by_cases hmem : sMem ((dGet sp0 m).getD []) s
  · rw [if_pos hmem]
    exact ⟨hsp1c, hsp1l⟩
  · rw [if_neg hmem]
    constructor
    · intro k
      exact dCount_dSet_le _ _ _ _ (hsp1c k)
    · intro k l hkl x
      by_cases hk : k = m
      · rw [hk, dGet_dSet_self] at hkl
        injection hkl with hv
        rw [← hv]
        have hLx : ∀ y, sCount ((dGet sp0 m).getD []) y ≤ 1 := by
          intro y
          cases hg : dGet sp0 m with
          | none => simp [sCount]
          | some l0 =>
            simp only [Option.getD_some]
            exact hc2 m l0 hg y
        rw [sCount_append]
        by_cases hx : x = s
        · have h0 : sCount ((dGet sp0 m).getD []) s = 0 :=
            (sMem_false_iff _ _).mp (by simpa using hmem)
          rw [hx, h0, sCount, sCount, if_pos rfl]
        · have h1 := hLx x
          rw [sCount, sCount, if_neg (Ne.symm hx)]
          omega
      · rw [dGet_dSet_ne _ _ _ _ hk] at hkl
        exact hsp1l k l hkl x

theorem SpNodup_add (st : SpeakerService) (m s t : String)
    (h : ¬(m = "" ∨ s = "" ∨ t = ""))
    (hs : SpNodup st.tag_definitions) :
    SpNodup (add_tag_to_speaker st m s t).2.tag_definitions := by
  rw [add_state st m s t h]
  dsimp only
  intro t'' td'' hget
  by_cases ht'' : t'' = t
  · rw [ht'', dGet_dSet_self] at hget
    injection hget with hv
    rw [← hv]
    dsimp only
    rw [dGet_ensure_self, optGetDSome]
    have hfacts : (∀ k, dCount ((dGet st.tag_definitions t).getD
        { description := some ("Tag: " ++ t), color := some "#808080",
          speakers := [] }).speakers k ≤ 1) ∧
        (∀ k l, dGet ((dGet st.tag_definitions t).getD
          { description := some ("Tag: " ++ t), color := some "#808080",
            speakers := [] }).speakers k = some l → ∀ x, sCount l x ≤ 1) := by
      cases hg : dGet st.tag_definitions t with
      | none =>
        constructor
        · intro k; simp [dCount]
        · intro k l hkl; simp [dGet] at hkl
      | some td =>
        simp only [Option.getD_some]
        exact ⟨(hs t td hg).1, fun k l hkl x => (hs t td hg).2 k l hkl x⟩
    exact addSpeakers_nodup _ m s hfacts.1 hfacts.2
  · rw [dGet_dSet_ne _ _ _ _ ht'', dGet_ensure_ne _ _ _ _ ht''] at hget
    exact hs t'' td'' hget

theorem ConsistencyInv_add (st : SpeakerService) (m s t : String)
    (h : ¬(m = "" ∨ s = "" ∨ t = "")) (hc : ConsistencyInv st) :
    ConsistencyInv (add_tag_to_speaker st m s t).2 := by
  have hcc : ∀ a b c, sMem (speakerTagsOf st a b) c = true ↔
      sMem (tagSpeakersOf st c a) b = true := hc
  intro m' s' t'
  show sMem (speakerTagsOf (add_tag_to_speaker st m s t).2 m' s') t' = true ↔
    sMem (tagSpeakersOf (add_tag_to_speaker st m s t).2 t' m') s' = true
  rw [speakerTagsOf_add st m s t m' s' h, tagSpeakersOf_add st m s t t' m' h]
  by_cases hm' : m' = m
  · rw [hm']
    by_cases hs' : s' = s
    · rw [hs']
      by_cases ht' : t' = t
      · rw [ht', if_pos ⟨rfl, rfl⟩, if_pos ⟨rfl, rfl⟩]
        constructor
        · intro _
          by_cases hmem : sMem (tagSpeakersOf st t m) s
          · rwa [if_pos hmem]
          · rw [if_neg hmem]
            exact (sMem_append_single _ _ _).mpr (Or.inr rfl)
        · intro _
          exact (sMem_sAdd_iff _ _ _).mpr (Or.inr rfl)
      · rw [if_pos ⟨rfl, rfl⟩, if_neg (show ¬(t' = t ∧ m = m) from fun hcq => ht' hcq.1)]
        rw [show (sMem (sAdd (speakerTagsOf st m s) t) t' = true) =
          (sMem (speakerTagsOf st m s) t' = true ∨ t' = t) from
          propext (sMem_sAdd_iff _ _ _)]
        simp only [ht', or_false]
        exact hcc m s t'
    · rw [if_neg (show ¬(m = m ∧ s' = s) from fun hcq => hs' hcq.2)]
      by_cases ht' : t' = t
      · rw [ht', if_pos ⟨rfl, rfl⟩]
        by_cases hmem : sMem (tagSpeakersOf st t m) s
        · rw [if_pos hmem]
          exact hcc m s' t
        · rw [if_neg hmem]
          rw [show (sMem (tagSpeakersOf st t m ++ [s]) s' = true) =
            (sMem (tagSpeakersOf st t m) s' = true ∨ s' = s) from
            propext (sMem_append_single _ _ _)]
          simp only [hs', or_false]
          exact hcc m s' t
      · rw [if_neg (show ¬(t' = t ∧ m = m) from fun hcq => ht' hcq.1)]
        exact hcc m s' t'
  · rw [if_neg (show ¬(m' = m ∧ s' = s) from fun hcq => hm' hcq.1),
      if_neg (show ¬(t' = t ∧ m' = m) from fun hcq => hm' hcq.2)]
    exact hcc m' s' t'

theorem GoodState_add (st : SpeakerService) (m s t : String)
    (hg : GoodState st) : GoodState (add_tag_to_speaker st m s t).2 := by
  by_cases h : m = "" ∨ s = "" ∨ t = ""
  · have heq : (add_tag_to_speaker st m s t).2 = st := by
      rw [add_tag_to_speaker, if_pos h]
    rw [heq]
    exact hg
  · refine ⟨ConsistencyInv_add st m s t h hg.1, SpNodup_add st m s t h hg.2.1, ?_⟩
    rw [add_state st m s t h]
    intro k
    dsimp only
    exact dCount_dSet_le _ _ _ _ (dCount_ensure_le _ _ _ _ (hg.2.2 k))

/-! ### Effect of remove_tag_from_speaker -/

theorem remove_state (st : SpeakerService) (m s t : String)
    (inner : List (String × List String)) (tags : List String)
    (td : TagData) (lst : List String)
    (h1 : dGet st.speaker_tags m = some inner)
    (h2 : dGet inner s = some tags) (h3 : sMem tags t = true)
    (h4 : dGet st.tag_definitions t = some td)
    (h5 : dGet td.speakers m = some lst) (h6 : sMem lst s = true) :
    remove_tag_from_speaker st m s t =
      (true,
        { speaker_tags := dSet st.speaker_tags m (dSet inner s (sDiscard tags t)),
          tag_definitions := dSet st.tag_definitions t
            { description := td.description, color := td.color,
              speakers :=
                if listRemove lst s = [] then dDel td.speakers m
                else dSet td.speakers m (listRemove lst s) },
          downloaded_models := st.downloaded_models,
          available_models := st.available_models }) := by
  simp only [remove_tag_from_speaker, h1, h2, h3, h4, h5, dMem,
    Option.isSome_some, Option.getD_some, if_true, ite_true, h6]

theorem remove_noop_model (st : SpeakerService) (m s t : String)
    (h1 : dGet st.speaker_tags m = none) :
    remove_tag_from_speaker st m s t = (false, st) := by
  simp only [remove_tag_from_speaker, h1]

theorem remove_noop_speaker (st : SpeakerService) (m s t : String)
    (inner : List (String × List String))
    (h1 : dGet st.speaker_tags m = some inner) (h2 : dGet inner s = none) :
    remove_tag_from_speaker st m s t = (false, st) := by
  simp only [remove_tag_from_speaker, h1, h2]

theorem remove_noop_tag (st : SpeakerService) (m s t : String)
    (inner : List (String × List String)) (tags : List String)
    (h1 : dGet st.speaker_tags m = some inner) (h2 : dGet inner s = some tags)
    (h3 : sMem tags t = false) :
    remove_tag_from_speaker st m s t = (false, st) := by
  simp only [remove_tag_from_speaker, h1, h2, h3, Bool.false_eq_true, if_false,
    ite_false]

theorem GoodState_removed (st : SpeakerService) (m s t : String)
    (inner : List (String × List String)) (tags : List String)
    (td : TagData) (lst : List String)
    (h1 : dGet st.speaker_tags m = some inner)
    (h2 : dGet inner s = some tags)
    (h4 : dGet st.tag_definitions t = some td)
    (h5 : dGet td.speakers m = some lst)
    (hg : GoodState st) :
    GoodState
      { speaker_tags := dSet st.speaker_tags m (dSet inner s (sDiscard tags t)),
        tag_definitions := dSet st.tag_definitions t
          { description := td.description, color := td.color,
            speakers :=
              if listRemove lst s = [] then dDel td.speakers m
              else dSet td.speakers m (listRemove lst s) },
        downloaded_models := st.downloaded_models,
        available_models := st.available_models } := by
  have hcc : ∀ a b c, sMem (speakerTagsOf st a b) c = true ↔
      sMem (tagSpeakersOf st c a) b = true := hg.1
  have hA : ∀ k, dCount td.speakers k ≤ 1 := (hg.2.1 t td h4).1
  have hB : ∀ k l, dGet td.speakers k = some l → ∀ x, sCount l x ≤ 1 :=
    (hg.2.1 t td h4).2
  have hlst : ∀ x, sCount lst x ≤ 1 := hB m lst h5
  have hTags : speakerTagsOf st m s = tags := by
    rw [speakerTagsOf, h1, optSomeBind, h2, optGetDSome]
  have hLst : tagSpeakersOf st t m = lst := by
    rw [tagSpeakersOf, h4, optMapSome, optSomeBind, h5, optGetDSome]
  -- the new speaker map recorded under tag t
  have hSp : ∀ m', (dGet (if listRemove lst s = [] then dDel td.speakers m
      else dSet td.speakers m (listRemove lst s)) m').getD [] =
      (if m' = m then listRemove lst s else (dGet td.speakers m').getD []) := by
    intro m'
    by_cases hm' : m' = m
    · rw [hm', if_pos rfl]
      by_cases hemp : listRemove lst s = []
      · rw [if_pos hemp, dGet_dDel_self td.speakers m (hA m), hemp]
        rfl
      · rw [if_neg hemp, dGet_dSet_self, optGetDSome]
    · rw [if_neg hm']
      by_cases hemp : listRemove lst s = []
      · rw [if_pos hemp, dGet_dDel_ne _ _ _ hm']
      · rw [if_neg hemp, dGet_dSet_ne _ _ _ _ hm']
  refine ⟨?_, ?_, ?_⟩
  · -- consistency
    intro m' s' t'
    show sMem ((((dGet (dSet st.speaker_tags m (dSet inner s (sDiscard tags t))) m')).bind
        (fun i => dGet i s')).getD []) t' = true ↔
      sMem (((Option.map TagData.speakers (dGet (dSet st.tag_definitions t
        { description := td.description, color := td.color,
          speakers :=
            if listRemove lst s = [] then dDel td.speakers m
            else dSet td.speakers m (listRemove lst s) }) t')).bind
        (fun sp => dGet sp m')).getD []) s' = true
    by_cases ht' : t' = t
    · rw [ht', dGet_dSet_self, optMapSome, optSomeBind]
      dsimp only
      rw [hSp m']
      by_cases hm' : m' = m
      · rw [if_pos hm', hm', dGet_dSet_self, optSomeBind]
        by_cases hs' : s' = s
        · rw [hs', dGet_dSet_self, optGetDSome]
          rw [show (sMem (sDiscard tags t) t = true) = (sMem tags t = true ∧ t ≠ t) from
            propext (sMem_sDiscard_iff _ _ _)]
          rw [show (sMem (listRemove lst s) s = true) = (sMem lst s = true ∧ s ≠ s) from
            propext (sMem_listRemove_iff _ _ _ (hlst s))]
          simp
        · rw [dGet_dSet_ne _ _ _ _ hs']
          rw [show (sMem (listRemove lst s) s' = true) = (sMem lst s' = true ∧ s' ≠ s) from
            propext (sMem_listRemove_iff _ _ _ (hlst s))]
          have hiff := hcc m s' t
          rw [speakerTagsOf, h1, optSomeBind, hLst] at hiff
          rw [hiff]
          simp [hs']
      · rw [if_neg hm', dGet_dSet_ne _ _ _ _ hm']
        have hiff := hcc m' s' t
        rw [speakerTagsOf, tagSpeakersOf, h4, optMapSome, optSomeBind] at hiff
        exact hiff
    · rw [dGet_dSet_ne _ _ _ _ ht']
      by_cases hm' : m' = m
      · rw [hm', dGet_dSet_self, optSomeBind]
        by_cases hs' : s' = s
        · rw [hs', dGet_dSet_self, optGetDSome]
          rw [show (sMem (sDiscard tags t) t' = true) = (sMem tags t' = true ∧ t' ≠ t) from
            propext (sMem_sDiscard_iff _ _ _)]
          have hiff := hcc m s t'
          rw [hTags] at hiff
          rw [show tagSpeakersOf st t' m =
            ((Option.map TagData.speakers (dGet st.tag_definitions t')).bind
              (fun sp => dGet sp m)).getD [] from rfl] at hiff
          rw [hiff]
          simp [ht']
        · rw [dGet_dSet_ne _ _ _ _ hs']
          have hiff := hcc m s' t'
          rw [speakerTagsOf, h1, optSomeBind] at hiff
          exact hiff
      · rw [dGet_dSet_ne _ _ _ _ hm']
        exact hcc m' s' t'
  · -- SpNodup
    intro t'' td'' hget
    dsimp only at hget
    by_cases ht'' : t'' = t
    · rw [ht'', dGet_dSet_self] at hget
      injection hget with hv
      rw [← hv]
      dsimp only
      constructor
      · intro k
        by_cases hemp : listRemove lst s = []
        · rw [if_pos hemp]
          exact le_trans (dCount_dDel_le _ _ _) (hA k)
        · rw [if_neg hemp]
          exact dCount_dSet_le _ _ _ _ (hA k)
      · intro k l hkl x
        by_cases hk : k = m
        · by_cases hemp : listRemove lst s = []
          · rw [hk, if_pos hemp, dGet_dDel_self td.speakers m (hA m)] at hkl
            exact absurd hkl (by simp)
          · rw [hk, if_neg hemp, dGet_dSet_self] at hkl
            injection hkl with hv2
            rw [← hv2]
            by_cases hx : x = s
            · rw [hx, sCount_listRemove_self]
              have := hlst s
              omega
            · rw [sCount_listRemove_ne _ _ _ hx]
              exact hlst x
        · by_cases hemp : listRemove lst s = []
          · rw [if_pos hemp, dGet_dDel_ne _ _ _ hk] at hkl
            exact hB k l hkl x
          · rw [if_neg hemp, dGet_dSet_ne _ _ _ _ hk] at hkl
            exact hB k l hkl x
    · rw [dGet_dSet_ne _ _ _ _ ht''] at hget
      exact hg.2.1 t'' td'' hget
  · -- unique tag keys
    intro k
    dsimp only
    exact dCount_dSet_le _ _ _ _ (hg.2.2 k)

theorem GoodState_remove_tag (st : SpeakerService) (m s t : String)
    (hg : GoodState st) : GoodState (remove_tag_from_speaker st m s t).2 := by
  cases h1 : dGet st.speaker_tags m with
  | none => rw [remove_noop_model st m s t h1]; exact hg
  | some inner =>
    cases h2 : dGet inner s with
    | none => rw [remove_noop_speaker st m s t inner h1 h2]; exact hg
    | some tags =>
      cases h3 : sMem tags t with
      | false => rw [remove_noop_tag st m s t inner tags h1 h2 h3]; exact hg
      | true =>
        have htag : sMem (speakerTagsOf st m s) t = true := by
          rw [speakerTagsOf, h1, optSomeBind, h2, optGetDSome]
          exact h3
        have hlist := (hg.1 m s t).mp htag
        cases h4 : dGet st.tag_definitions t with
        | none =>
          exfalso
          rw [ListedUnder, tagSpeakersOf, h4] at hlist
          simp [sMem] at hlist
        | some td =>
          cases h5 : dGet td.speakers m with
          | none =>
            exfalso
            rw [ListedUnder, tagSpeakersOf, h4, optMapSome, optSomeBind, h5] at hlist
            simp [sMem] at hlist
          | some lst =>
            have h6 : sMem lst s = true := by
              rw [ListedUnder, tagSpeakersOf, h4, optMapSome, optSomeBind, h5,
                optGetDSome] at hlist
              exact hlist
            rw [remove_state st m s t inner tags td lst h1 h2 h3 h4 h5 h6]
            exact GoodState_removed st m s t inner tags td lst h1 h2 h4 h5 hg

/-! ### Effect of remove_tag_definition -/

theorem dGet_map_values (f : β → γ) (d : List (String × β)) (k : String) :
    dGet (d.map (fun kv => (kv.1, f kv.2))) k = (dGet d k).map f := by
  induction d with
  | nil => simp [dGet]
  | cons kv rest ih =>
    by_cases hk : kv.1 = k
    · simp [dGet, hk]
    · simp [dGet, hk, ih]

theorem remove_tagdef_state (st : SpeakerService) (tag : String) (td : TagData)
    (h : dGet st.tag_definitions tag = some td) :
    remove_tag_definition st tag =
      (true,
        { speaker_tags := st.speaker_tags.map (fun mkv =>
            (mkv.1, mkv.2.map (fun skv => (skv.1, sDiscard skv.2 tag)))),
          tag_definitions := dDel st.tag_definitions tag,
          downloaded_models := st.downloaded_models,
          available_models := st.available_models }) := by
  simp only [remove_tag_definition, dMem, h, Option.isSome_some, if_true, ite_true]

theorem remove_tagdef_noop (st : SpeakerService) (tag : String)
    (h : dGet st.tag_definitions tag = none) :
    remove_tag_definition st tag = (false, st) := by
  simp only [remove_tag_definition, dMem, h, Option.isSome_none, Bool.false_eq_true,
    if_false, ite_false]

theorem speakerTagsOf_remove_tagdef (st : SpeakerService) (tag m' s' : String) :
    speakerTagsOf
      { speaker_tags := st.speaker_tags.map (fun mkv =>
          (mkv.1, mkv.2.map (fun skv => (skv.1, sDiscard skv.2 tag)))),
        tag_definitions := dDel st.tag_definitions tag,
        downloaded_models := st.downloaded_models,
        available_models := st.available_models } m' s' =
      sDiscard (speakerTagsOf st m' s') tag := by
  rw [speakerTagsOf]
  dsimp only
  rw [dGet_map_values (fun inner => inner.map (fun skv => (skv.1, sDiscard skv.2 tag)))
    st.speaker_tags m']
  cases hmm : dGet st.speaker_tags m' with
  | none =>
    rw [speakerTagsOf, hmm]
    simp [sDiscard]
  | some inner =>
    rw [speakerTagsOf, hmm, optSomeBind, Option.map_some', optSomeBind]
    rw [dGet_map_values (fun tags => sDiscard tags tag) inner s']
    cases hss : dGet inner s' with
    | none => simp [sDiscard]
    | some tags => simp

theorem GoodState_remove_tagdef (st : SpeakerService) (tag : String)
    (hg : GoodState st) : GoodState (remove_tag_definition st tag).2 := by
  cases h : dGet st.tag_definitions tag with
  | none => rw [remove_tagdef_noop st tag h]; exact hg
  | some td =>
    rw [remove_tagdef_state st tag td h]
    refine ⟨?_, ?_, ?_⟩
    · -- consistency
      intro m' s' t'
      show sMem (speakerTagsOf _ m' s') t' = true ↔ sMem (tagSpeakersOf _ t' m') s' = true
      rw [speakerTagsOf_remove_tagdef st tag m' s']
      rw [tagSpeakersOf]
      dsimp only
      by_cases ht' : t' = tag
      · rw [ht', dGet_dDel_self st.tag_definitions tag (hg.2.2 tag)]
        rw [show (sMem (sDiscard (speakerTagsOf st m' s') tag) tag = true) =
          (sMem (speakerTagsOf st m' s') tag = true ∧ tag ≠ tag) from
          propext (sMem_sDiscard_iff _ _ _)]
        simp [sMem]
      · rw [dGet_dDel_ne _ _ _ ht']
        rw [show (sMem (sDiscard (speakerTagsOf st m' s') tag) t' = true) =
          (sMem (speakerTagsOf st m' s') t' = true ∧ t' ≠ tag) from
          propext (sMem_sDiscard_iff _ _ _)]
        have hiff := hg.1 m' s' t'
        rw [TagOn, ListedUnder, tagSpeakersOf] at hiff
        rw [hiff]
        simp [ht']
    · -- speaker maps untouched
      intro t'' td'' hget
      dsimp only at hget
      by_cases ht'' : t'' = tag
      · rw [ht'', dGet_dDel_self st.tag_definitions tag (hg.2.2 tag)] at hget
        exact absurd hget (by simp)
      · rw [dGet_dDel_ne _ _ _ ht''] at hget
        exact hg.2.1 t'' td'' hget
    · -- unique tag keys
      intro k
      dsimp only
      exact le_trans (dCount_dDel_le _ _ _) (hg.2.2 k)

/-! ### Sequences of index-mutating operations -/

/-- One call to an index-mutating operation of the service. -/
inductive TagOp where
  | addTag (model speaker tag : String)
  | removeTag (model speaker tag : String)
  | removeTagDef (tag : String)

/-- Applies one operation, discarding the boolean result. -/
def applyOp (st : SpeakerService) : TagOp → SpeakerService
  | .addTag m s t => (add_tag_to_speaker st m s t).2
  | .removeTag m s t => (remove_tag_from_speaker st m s t).2
  | .removeTagDef t => (remove_tag_definition st t).2

/-- State reached from a fresh empty store by a sequence of operations. -/
def runOps (ops : List TagOp) : SpeakerService :=
  ops.foldl applyOp emptyService

theorem GoodState_empty : GoodState emptyService := by
  refine ⟨?_, ?_, ?_⟩
  · intro m s t
    show sMem (speakerTagsOf emptyService m s) t = true ↔
      sMem (tagSpeakersOf emptyService t m) s = true
    rw [speakerTagsOf, tagSpeakersOf]
    simp [emptyService, dGet, sMem]
  · intro t td hget
    simp [emptyService, dGet] at hget
  · intro k
    simp [emptyService, dCount]

theorem GoodState_applyOp (st : SpeakerService) (op : TagOp)
    (hg : GoodState st) : GoodState (applyOp st op) := by
  cases op with
  | addTag m s t => exact GoodState_add st m s t hg
  | removeTag m s t => exact GoodState_remove_tag st m s t hg
  | removeTagDef t => exact GoodState_remove_tagdef st t hg

theorem GoodState_runOps (ops : List TagOp) : GoodState (runOps ops) := by
  rw [runOps]
  suffices h : ∀ st, GoodState st → GoodState (ops.foldl applyOp st) from
    h emptyService GoodState_empty
  induction ops with
  | nil => intro st hst; exact hst
  | cons op rest ih =>
    intro st hst
    rw [List.foldl]
    exact ih (applyOp st op) (GoodState_applyOp st op hst)

/-- State obtained from a fresh store by tagging speaker "s" of model "m"
with tag "t" and then removing that speaker via `remove_speaker`. -/
def c4state : SpeakerService :=
  (remove_speaker (add_tag_to_speaker emptyService "m" "s" "t").2 "m" "s").2

/-- Claim C4 is false as stated: `remove_speaker` deletes the speaker from
`speaker_tags` but leaves it listed in `tag_definitions`, so after
add_tag_to_speaker("m","s","t") followed by remove_speaker("m","s") the
tag "t" is not on speaker "s" in `speaker_tags` while "s" is still listed
under "t" for model "m" in `tag_definitions` — the consistency invariant
fails at this concrete two-operation sequence from the empty store. -/
theorem C4_remove_speaker_breaks_invariant :
    sMem (speakerTagsOf c4state "m" "s") "t" = false ∧
    sMem (tagSpeakersOf c4state "t" "m") "s" = true ∧
    ¬ ConsistencyInv c4state := by
  refine ⟨by decide, by decide, fun h => ?_⟩
  have h2 := h "m" "s" "t"
  rw [TagOn, ListedUnder] at h2
  have h3 : sMem (speakerTagsOf c4state "m" "s") "t" = true := h2.mpr (by decide)
  exact absurd h3 (by decide)

/-- Claim C4 (amended): of the mutating operations, `add_tag_to_speaker`,
`remove_tag_from_speaker` and `remove_tag_definition` preserve the
consistency invariant between the two indexes — starting from the empty
store, after any sequence of these three operations, tag `t` is in
`speaker_tags[m][s]` if and only if `s` is an element of
`tag_definitions[t]["speakers"][m]`.  (`remove_speaker`, `remove_model`
and `add_tag_definition` do not preserve it; see the counterexample.) -/
theorem C4_index_ops_preserve_consistency (ops : List TagOp) :
    ConsistencyInv (runOps ops) :=
  (GoodState_runOps ops).1

/-! ### Claims about the model download status -/

/-- Claim C5: the per-model download status behaves as a set —
`mark_model_downloaded m` returns true and adds `m` exactly when `m` was
not already marked (returning false and leaving the state unchanged
otherwise); `mark_model_not_downloaded m` returns true and removes `m`
exactly when `m` was marked (returning false and leaving the state
unchanged otherwise); and `is_model_downloaded m` holds exactly when `m`
is a member of the downloaded set. -/
theorem C5_download_status_is_a_set (st : SpeakerService) (m x : String) :
    ((mark_model_downloaded st m).1 = !(is_model_downloaded st m)) ∧
    (is_model_downloaded (mark_model_downloaded st m).2 x = true ↔
      (is_model_downloaded st x = true ∨ x = m)) ∧
    ((mark_model_downloaded st m).1 = false → (mark_model_downloaded st m).2 = st) ∧
    ((mark_model_not_downloaded st m).1 = is_model_downloaded st m) ∧
    (is_model_downloaded (mark_model_not_downloaded st m).2 x = true ↔
      (is_model_downloaded st x = true ∧ x ≠ m)) ∧
    ((mark_model_not_downloaded st m).1 = false →
      (mark_model_not_downloaded st m).2 = st) ∧
    (is_model_downloaded st x = true ↔ x ∈ st.downloaded_models) := by
  refine ⟨?_, ?_, ?_, ?_, ?_, ?_, sMem_iff_mem _ _⟩
  · rw [mark_model_downloaded, is_model_downloaded]
    by_cases hm : sMem st.downloaded_models m = true
    · rw [if_pos hm, hm]
      rfl
    · rw [if_neg hm]
      simp only [Bool.not_eq_true] at hm
      rw [hm]
      rfl
  · rw [mark_model_downloaded, is_model_downloaded, is_model_downloaded]
    by_cases hm : sMem st.downloaded_models m = true
    · rw [if_pos hm]
      constructor
      · exact fun hx => Or.inl hx
      · intro hx
        cases hx with
        | inl hx => exact hx
        | inr hx => rw [hx]; exact hm
    · rw [if_neg hm]
      exact sMem_sAdd_iff _ _ _
  · rw [mark_model_downloaded]
    by_cases hm : sMem st.downloaded_models m = true
    · rw [if_pos hm]
      intro _; rfl
    · rw [if_neg hm]
      intro hfalse
      exact absurd hfalse (by simp)
  · rw [mark_model_not_downloaded, is_model_downloaded]
    by_cases hm : sMem st.downloaded_models m = true
    · rw [if_pos hm, hm]
    · rw [if_neg hm]
      simp only [Bool.not_eq_true] at hm
      rw [hm]
  · rw [mark_model_not_downloaded, is_model_downloaded, is_model_downloaded]
    by_cases hm : sMem st.downloaded_models m = true
    · rw [if_pos hm]
      exact sMem_sDiscard_iff _ _ _
    · rw [if_neg hm]
      simp only [Bool.not_eq_true] at hm
      constructor
      · intro hx
        refine ⟨hx, fun hxm => ?_⟩
        rw [hxm] at hx
        rw [hx] at hm
        exact Bool.false_ne_true hm.symm
      · exact fun hx => hx.1
  · rw [mark_model_not_downloaded]
    by_cases hm : sMem st.downloaded_models m = true
    · rw [if_pos hm]
      intro hfalse
      exact absurd hfalse (by simp)
    · rw [if_neg hm]
      intro _; rfl

/-! ### Claims about the query operations -/

theorem get_speakers_with_tag_foldl (l : List (String × List String))
    (t : String) (acc : List String) :
    l.foldl (fun speakers skv =>
      if sMem skv.2 t then speakers ++ [skv.1] else speakers) acc =
    acc ++ (l.filter (fun skv => sMem skv.2 t)).map (fun skv => skv.1) := by
  induction l generalizing acc with
  | nil => simp
  | cons kv rest ih =>
    rw [List.foldl]
    by_cases hkv : sMem kv.2 t = true
    · rw [if_pos hkv, ih]
      simp [List.filter_cons, hkv]
    · rw [if_neg hkv, ih]
      simp only [Bool.not_eq_true] at hkv
      simp [List.filter_cons, hkv]

/-- Claim C8: `get_speakers_with_tag m t` returns exactly the speakers
recorded for model `m` whose tag set contains `t`, in the order the
speakers are stored (the dict's insertion order), and the empty list when
`m` is not a recorded model.  The translated method is a pure function of
the state, which is the shallow-embedding rendering of "performs no
mutation of the store". -/
theorem C8_get_speakers_with_tag (st : SpeakerService) (m t : String) :
    get_speakers_with_tag st m t =
      (((dGet st.speaker_tags m).getD []).filter
        (fun skv => sMem skv.2 t)).map (fun skv => skv.1) ∧
    (dMem st.speaker_tags m = false → get_speakers_with_tag st m t = []) := by
  constructor
  · rw [get_speakers_with_tag]
    cases h : dGet st.speaker_tags m with
    | none => simp
    | some inner =>
      simp only [Option.getD_some]
      rw [get_speakers_with_tag_foldl inner t []]
      simp
  · intro hmem
    rw [get_speakers_with_tag]
    cases h : dGet st.speaker_tags m with
    | none => rfl
    | some inner =>
      rw [dMem, h] at hmem
      exact absurd hmem (by simp)

/-- Claim C9: `get_undownloaded_models` returns exactly the available
models that are not in the downloaded set — membership is available-and-
not-downloaded, the result is a sublist of `available_models` (the order
of `available_models` is preserved), and no returned model is in
`get_downloaded_models`. -/
theorem C9_get_undownloaded_models (st : SpeakerService) (m : String) :
    (m ∈ get_undownloaded_models st ↔
      (m ∈ st.available_models ∧ is_model_downloaded st m = false)) ∧
    List.Sublist (get_undownloaded_models st) st.available_models ∧
    (m ∈ get_undownloaded_models st → m ∉ get_downloaded_models st) := by
  have hmem : m ∈ get_undownloaded_models st ↔
      (m ∈ st.available_models ∧ is_model_downloaded st m = false) := by
    rw [get_undownloaded_models, List.mem_filter, is_model_downloaded]
    simp
  refine ⟨hmem, ?_, ?_⟩
  · rw [get_undownloaded_models]
    exact List.filter_sublist _
  · intro hm hdl
    have h1 := (hmem.mp hm).2
    rw [get_downloaded_models] at hdl
    rw [is_model_downloaded] at h1
    rw [← sMem_iff_mem] at hdl
    rw [h1] at hdl
    exact Bool.false_ne_true hdl

/-- Claim C10: `get_speaker_tags m s` returns (a copy of) the stored tag
set of speaker `s` of model `m`, and the empty set when the model or the
speaker is not recorded.  In the shallow embedding the method is a pure
function of the state, so the store's four fields are unaffected by the
call and by any mutation of the returned copy — which is why the source
returns `.copy()` rather than the aliased set. -/
theorem C10_get_speaker_tags (st : SpeakerService) (m s : String) :
    get_speaker_tags st m s = speakerTagsOf st m s ∧
    (dMem st.speaker_tags m = false → get_speaker_tags st m s = []) ∧
    (∀ inner, dGet st.speaker_tags m = some inner → dMem inner s = false →
      get_speaker_tags st m s = []) := by
  refine ⟨?_, ?_, ?_⟩
  · rw [get_speaker_tags, speakerTagsOf]
    cases h1 : dGet st.speaker_tags m with
    | none => rfl
    | some inner =>
      dsimp only
      rw [optSomeBind]
      cases h2 : dGet inner s with
      | none => rfl
      | some tags =>
        dsimp only
        rw [optGetDSome, sCopy_eq]
  · intro hmem
    rw [get_speaker_tags]
    cases h1 : dGet st.speaker_tags m with
    | none => rfl
    | some inner =>
      rw [dMem, h1] at hmem
      exact absurd hmem (by simp)
  · intro inner h1 hmem
    rw [get_speaker_tags, h1]
    dsimp only
    cases h2 : dGet inner s with
    | none => rfl
    | some tags =>
      rw [dMem, h2] at hmem
      exact absurd hmem (by simp)

/-! ### Claim about the saved file's shape -/

/-- Key lookup in a JSON object value. -/
def jObjGet (j : J) (k : String) : Option J :=
  match j with
  | .obj kvs => dGet kvs k
  | _ => none

/-- Top-level keys of a JSON object value. -/
def jObjKeys (j : J) : List String :=
  match j with
  | .obj kvs => kvs.map (fun kv => kv.1)
  | _ => []

/-- Claim C3: `save_speaker_tags` always writes the current versioned
shape — the written object has exactly the top-level keys "_metadata"
(whose "version" is "1.3"), "_models" (with "downloaded" and "available"),
and "_tags"; and under "_tags" every stored tag maps to an object with
exactly the keys "description", "color" and "speakers" (the per-model
speaker lists), substituting the defaults "Tag: <name>" and "#808080"
for a missing description or color. -/
theorem C3_save_writes_versioned_shape (st : SpeakerService) (t : String)
    (td : TagData) (h : dGet st.tag_definitions t = some td) :
    jObjKeys (save_speaker_tags st) = ["_metadata", "_models", "_tags"] ∧
    ((jObjGet (save_speaker_tags st) "_metadata").bind
      (fun j => jObjGet j "version")) = some (J.str "1.3") ∧
    jObjKeys ((jObjGet (save_speaker_tags st) "_models").getD (J.obj []))
      = ["downloaded", "available"] ∧
    ((jObjGet (save_speaker_tags st) "_tags").bind (fun j => jObjGet j t)) =
      some (J.obj
        [("description", J.str (td.description.getD ("Tag: " ++ t))),
         ("color", J.str (td.color.getD "#808080")),
         ("speakers", J.obj (td.speakers.map
            (fun mkv => (mkv.1, J.arr (mkv.2.map J.str)))))]) := by
  refine ⟨rfl, rfl, rfl, ?_⟩
  show (some (J.obj (st.tag_definitions.map
      (fun kv => (kv.1, tagJson kv.1 kv.2))))).bind (fun j => jObjGet j t) = _
  rw [optSomeBind]
  show dGet (st.tag_definitions.map (fun kv => (kv.1, tagJson kv.1 kv.2))) t = _
  rw [dGet_map_keyed tagJson st.tag_definitions t, h, optMapSome, tagJson]

/-- Concrete service used as the witness input of claim C3: one tag with
no stored description (so save must substitute the default). -/
def c3service : SpeakerService :=
  { speaker_tags := [("m1", [("alice", ["calm"])])],
    tag_definitions := [("calm",
      { description := none, color := some "#123456",
        speakers := [("m1", ["alice"])] })],
    downloaded_models := ["m1"],
    available_models := ["m1", "m2"] }

/-- Witness for claim C3 at a concrete store. -/
theorem C3_save_witness :
    dGet c3service.tag_definitions "calm" = some
      { description := none, color := some "#123456",
        speakers := [("m1", ["alice"])] } ∧
    jObjKeys (save_speaker_tags c3service) = ["_metadata", "_models", "_tags"] :=
  ⟨rfl, (C3_save_writes_versioned_shape c3service "calm" _ rfl).1⟩

/-! ### Idempotence of add_tag_to_speaker -/

theorem ensure_of_mem (d : List (String × α)) (k : String) (v w : α)
    (h : dGet d k = some v) : ensure d k w = d := by
  rw [ensure, dMem, h]
  rfl

theorem sAdd_of_mem (l : List String) (x : String)
    (h : sMem l x = true) : sAdd l x = l := by
  rw [sAdd, if_pos h]

theorem addSpeakers_idem (sp0 : List (String × List String)) (m s : String) :
    addSpeakers (addSpeakers sp0 m s) m s = addSpeakers sp0 m s := by
  by_cases hmem : sMem ((dGet sp0 m).getD []) s = true
  · have h1 : addSpeakers sp0 m s = ensure sp0 m [] := by
      simp only [addSpeakers, dGet_ensure_self, optGetDSome]
      rw [if_pos hmem]
    rw [h1]
    simp only [addSpeakers]
    have h2 : dGet (ensure sp0 m []) m = some ((dGet sp0 m).getD []) :=
      dGet_ensure_self _ _ _
    rw [ensure_of_mem _ _ _ _ h2, h2, optGetDSome, if_pos hmem]
  · have h1 : addSpeakers sp0 m s =
        dSet (ensure sp0 m []) m (((dGet sp0 m).getD []) ++ [s]) := by
      simp only [addSpeakers, dGet_ensure_self, optGetDSome]
      rw [if_neg hmem]
    rw [h1]
    simp only [addSpeakers]
    have h2 : dGet (dSet (ensure sp0 m []) m (((dGet sp0 m).getD []) ++ [s])) m
        = some (((dGet sp0 m).getD []) ++ [s]) := dGet_dSet_self _ _ _
    rw [ensure_of_mem _ _ _ _ h2, h2, optGetDSome]
    have hmem2 : sMem (((dGet sp0 m).getD []) ++ [s]) s = true :=
      (sMem_append_single _ _ _).mpr (Or.inr rfl)
    rw [if_pos hmem2]

theorem add_state_pair (st : SpeakerService) (m s t : String)
    (h : ¬(m = "" ∨ s = "" ∨ t = "")) :
    add_tag_to_speaker st m s t = (true, (add_tag_to_speaker st m s t).2) := by
  rw [add_tag_to_speaker, if_neg h]

theorem add_idempotent (st : SpeakerService) (m s t : String)
    (h : ¬(m = "" ∨ s = "" ∨ t = "")) :
    add_tag_to_speaker (add_tag_to_speaker st m s t).2 m s t =
      (true, (add_tag_to_speaker st m s t).2) := by
  rw [add_state_pair _ m s t h, add_state st m s t h, add_state _ m s t h]
  dsimp only
  refine congrArg (fun x => ((true : Bool), x)) ?_
  have hXm : dGet (dSet (ensure st.speaker_tags m []) m
      (dSet (ensure ((dGet (ensure st.speaker_tags m []) m).getD []) s [])
        s (sAdd ((dGet (ensure ((dGet (ensure st.speaker_tags m []) m).getD [])
          s []) s).getD []) t))) m
      = some (dSet (ensure ((dGet (ensure st.speaker_tags m []) m).getD []) s [])
        s (sAdd ((dGet (ensure ((dGet (ensure st.speaker_tags m []) m).getD [])
          s []) s).getD []) t)) := dGet_dSet_self _ _ _
  have hVs : dGet (dSet (ensure ((dGet (ensure st.speaker_tags m []) m).getD []) s [])
      s (sAdd ((dGet (ensure ((dGet (ensure st.speaker_tags m []) m).getD [])
        s []) s).getD []) t)) s
      = some (sAdd ((dGet (ensure ((dGet (ensure st.speaker_tags m []) m).getD [])
        s []) s).getD []) t) := dGet_dSet_self _ _ _
  have hYt : dGet (dSet (ensure st.tag_definitions t
      { description := some ("Tag: " ++ t), color := some "#808080", speakers := [] }) t
      { description := ((dGet (ensure st.tag_definitions t
          { description := some ("Tag: " ++ t), color := some "#808080",
            speakers := [] }) t).getD
          { description := none, color := none, speakers := [] }).description,
        color := ((dGet (ensure st.tag_definitions t
          { description := some ("Tag: " ++ t), color := some "#808080",
            speakers := [] }) t).getD
          { description := none, color := none, speakers := [] }).color,
        speakers := addSpeakers ((dGet (ensure st.tag_definitions t
          { description := some ("Tag: " ++ t), color := some "#808080",
            speakers := [] }) t).getD
          { description := none, color := none, speakers := [] }).speakers m s }) t
      = some
      { description := ((dGet (ensure st.tag_definitions t
          { description := some ("Tag: " ++ t), color := some "#808080",
            speakers := [] }) t).getD
          { description := none, color := none, speakers := [] }).description,
        color := ((dGet (ensure st.tag_definitions t
          { description := some ("Tag: " ++ t), color := some "#808080",
            speakers := [] }) t).getD
          { description := none, color := none, speakers := [] }).color,
        speakers := addSpeakers ((dGet (ensure st.tag_definitions t
          { description := some ("Tag: " ++ t), color := some "#808080",
            speakers := [] }) t).getD
          { description := none, color := none, speakers := [] }).speakers m s } :=
    dGet_dSet_self _ _ _
  rw [ensure_of_mem _ _ _ _ hXm, hXm, optGetDSome,
    ensure_of_mem _ _ _ _ hVs, hVs, optGetDSome]
  have hmemT : sMem (sAdd ((dGet (ensure ((dGet (ensure st.speaker_tags m []) m).getD [])
      s []) s).getD []) t) t = true := (sMem_sAdd_iff _ _ _).mpr (Or.inr rfl)
  rw [sAdd_of_mem _ _ hmemT, dSet_eq_self _ _ _ hVs, dSet_eq_self _ _ _ hXm]
  rw [ensure_of_mem _ _ _ _ hYt, hYt, optGetDSome]
  dsimp only
  rw [addSpeakers_idem, dSet_eq_self _ _ _ hYt]

/-- The translated method `get_speaker_tags` returns exactly the
`speaker_tags` index entry (the copy equals the stored set). -/
theorem get_speaker_tags_eq_index (st : SpeakerService) (m s : String) :
    get_speaker_tags st m s = speakerTagsOf st m s := by
  rw [get_speaker_tags, speakerTagsOf]
  cases h1 : dGet st.speaker_tags m with
  | none => rfl
  | some inner =>
    dsimp only
    rw [optSomeBind]
    cases h2 : dGet inner s with
    | none => rfl
    | some tags =>
      dsimp only
      rw [optGetDSome, sCopy_eq]

/-- Claim C7: `add_tag_to_speaker(m, s, t)` returns false and leaves the
store unchanged when any argument is the empty string; on non-empty
arguments it returns true, afterwards `t` is in `get_speaker_tags(m, s)`,
and `s` occurs exactly once in the tag's per-model speaker list — also
when the same call is repeated (the call is idempotent: the repeated call
returns true and the state is unchanged).  The occurs-once conclusion
needs the speaker to occur at most once beforehand, which holds in every
state the program itself builds (see `GoodState_runOps`). -/
theorem C7_add_tag_to_speaker_spec (st : SpeakerService) (m s t : String)
    (hm : ¬m = "") (hs : ¬s = "") (ht : ¬t = "")
    (hcount : sCount (tagSpeakersOf st t m) s ≤ 1) :
    (add_tag_to_speaker st m s t).1 = true ∧
    sMem (get_speaker_tags (add_tag_to_speaker st m s t).2 m s) t = true ∧
    sCount (tagSpeakersOf (add_tag_to_speaker st m s t).2 t m) s = 1 ∧
    add_tag_to_speaker (add_tag_to_speaker st m s t).2 m s t =
      (true, (add_tag_to_speaker st m s t).2) ∧
    (∀ m' s' t', m' = "" ∨ s' = "" ∨ t' = "" →
      add_tag_to_speaker st m' s' t' = (false, st)) := by
  have h : ¬(m = "" ∨ s = "" ∨ t = "") := by
    intro hc
    cases hc with
    | inl hc => exact hm hc
    | inr hc => cases hc with
      | inl hc => exact hs hc
      | inr hc => exact ht hc
  have hcount1 : sCount (tagSpeakersOf (add_tag_to_speaker st m s t).2 t m) s = 1 := by
    rw [tagSpeakersOf_add st m s t t m h, if_pos ⟨rfl, rfl⟩]
    by_cases hmem : sMem (tagSpeakersOf st t m) s = true
    · rw [if_pos hmem]
      have h1 := (sMem_pos_iff _ _).mp hmem
      omega
    · rw [if_neg hmem]
      have h0 := (sMem_false_iff _ _).mp (by simpa using hmem)
      rw [sCount_append, h0, sCount, sCount, if_pos rfl]
  refine ⟨add_fst st m s t h, ?_, hcount1, add_idempotent st m s t h, ?_⟩
  · rw [get_speaker_tags_eq_index, speakerTagsOf_add st m s t m s h,
      if_pos ⟨rfl, rfl⟩]
    exact (sMem_sAdd_iff _ _ _).mpr (Or.inr rfl)
  · intro m' s' t' hc
    rw [add_tag_to_speaker, if_pos hc]

/-- Witness for claim C7: the hypotheses hold at the empty store with
arguments "m", "s", "t", and the call returns true there. -/
theorem C7_add_tag_witness :
    (¬("m" : String) = "" ∧ ¬("s" : String) = "" ∧ ¬("t" : String) = "" ∧
      sCount (tagSpeakersOf emptyService "t" "m") "s" ≤ 1) ∧
    (add_tag_to_speaker emptyService "m" "s" "t").1 = true :=
  ⟨⟨by decide, by decide, by decide, by decide⟩,
    (C7_add_tag_to_speaker_spec emptyService "m" "s" "t"
      (by decide) (by decide) (by decide) (by decide)).1⟩

/-! ### Claims about loading and the save/load round trip -/

/-- A tags file in the raw legacy shape: a plain mapping
model -> speaker -> list of tags, with no "_metadata" or "_tags" key. -/
def rawLegacyFile : J :=
  J.obj [("my_model", J.obj [("alice", J.arr [J.str "calm"])])]

/-- Claim C1 names the code's intent, but the code has a slip: the entire
format-detection chain, including the branch commented "Legacy format -
convert to new format", is nested inside
`if "_metadata" in data and "_tags" in data:`, so a raw legacy file with
neither key matches no branch at all and `load_speaker_tags` leaves every
field at its prior value (for a fresh service: empty) instead of folding
the file in.  This theorem evaluates the loader at such a file. -/
theorem C1_raw_legacy_file_is_ignored (prior : SpeakerService) :
    load_speaker_tags prior (TagsFile.content rawLegacyFile) = prior := by
  rfl

/-- Claim C2 fails at the empty store: `save_speaker_tags` writes
`"_tags": {}`, and on reload the v1.3 check `tags_data and any(...)` is
falsy, no other format matches, and the legacy branch parses the whole
saved file as a model -> speaker -> tags mapping — the reloaded service
has downloaded_models `{"_metadata", "_models", "_tags"}` and speaker-tag
garbage derived from the metadata strings instead of the empty store. -/
theorem C2_empty_store_roundtrip_garbage :
    (load_speaker_tags emptyService
      (TagsFile.content (save_speaker_tags emptyService))).downloaded_models
      = ["_metadata", "_models", "_tags"] ∧
    (load_speaker_tags emptyService
      (TagsFile.content (save_speaker_tags emptyService))).available_models
      = ["_metadata", "_models", "_tags"] ∧
    load_speaker_tags emptyService
      (TagsFile.content (save_speaker_tags emptyService)) ≠ emptyService := by
  refine ⟨by decide, by decide, fun hc => ?_⟩
  exact absurd (congrArg SpeakerService.downloaded_models hc) (by decide)

/-- Claim C6: `load_speaker_tags` never leaves a partially loaded state —
a missing file resets the service to empty, an unreadable or malformed
file raises in open/json.load and the handler resets to empty, and any
error raised while interpreting a parsed value is caught by the same
handler, which resets all four fields to empty. -/
theorem C6_load_errors_reset_to_empty (prior : SpeakerService) (d : J)
    (h : loadCore prior d = .error ()) :
    load_speaker_tags prior TagsFile.missing = emptyService ∧
    load_speaker_tags prior TagsFile.unparsable = emptyService ∧
    load_speaker_tags prior (TagsFile.content d) = emptyService := by
  refine ⟨rfl, rfl, ?_⟩
  simp only [load_speaker_tags, h]

/-- A parsed tags file whose interpretation raises: it carries both
"_metadata" and "_tags" keys, matches no structured format, and the
legacy branch calls `.items()` on a list. -/
def c6badFile : J :=
  J.obj [("_metadata", J.arr []), ("_tags", J.str "")]

/-- Witness for claim C6: a concrete file on which interpretation errors,
and the loader resets the service to empty. -/
theorem C6_load_errors_witness :
    loadCore emptyService c6badFile = .error () ∧
    load_speaker_tags emptyService (TagsFile.content c6badFile) = emptyService :=
  ⟨rfl, (C6_load_errors_reset_to_empty emptyService c6badFile rfl).2.2⟩

/-- State obtained by tagging speaker "s" of model "m" and then removing
the whole model via `remove_model`: the tag side keeps the listing. -/
def c4stateModel : SpeakerService :=
  (remove_model (add_tag_to_speaker emptyService "m" "s" "t").2 "m").2

/-- Like `remove_speaker`, `remove_model` deletes only the `speaker_tags`
side and breaks the consistency invariant. -/
theorem remove_model_breaks_invariant :
    sMem (speakerTagsOf c4stateModel "m" "s") "t" = false ∧
    sMem (tagSpeakersOf c4stateModel "t" "m") "s" = true := by
  decide

/-- State obtained by tagging speaker "s" of model "m" and then calling
`add_tag_definition` on the same tag: the definition's speaker lists are
overwritten with an empty map while the tag stays on the speaker. -/
def c4stateTagDef : SpeakerService :=
  add_tag_definition (add_tag_to_speaker emptyService "m" "s" "t").2 "t" "d" "#ffffff"

/-- `add_tag_definition` on an existing tag also breaks the consistency
invariant, in the other direction. -/
theorem add_tag_definition_breaks_invariant :
    sMem (speakerTagsOf c4stateTagDef "m" "s") "t" = true ∧
    sMem (tagSpeakersOf c4stateTagDef "t" "m") "s" = false := by
  decide
